import Mathlib

/-!
Shallow embedding of the rule engine, webhook ingestion helpers and chat-sync
reconciliation of the WhatsApp gateway
(`src/evolution_api/gateway/src/clients/evolution.ts` — RuleEngine part,
`src/evolution_api/gateway/src/routes/webhook.ts`,
`src/unnamed/part_009` — createWaRoutes).

Conventions of the embedding:
* JavaScript string-truthiness checks (`if (x)`) on optional strings are
  modelled by `strTruthy : Option String → Bool`.
* JS string primitives (`toLowerCase`, `includes`, `startsWith`, `endsWith`,
  `substring`, `split`) are modelled over the string's character list with
  ASCII case folding; all inputs used in theorems are ASCII.
* Database timestamps are `Int` instants at second resolution; every SQL
  `NOW()` evaluated while one webhook event is processed is the single instant
  at which that event is processed (the store clock, second resolution).
* `new RegExp(pat, 'i')` is modelled by an oracle
  `compileRegex : String → Option (String → Bool)`: `none` models a pattern on
  which the RegExp constructor throws, `some test` models a compiled
  case-insensitive regex with its `test` method.
* External action dispatch (Home Assistant service calls, WhatsApp replies) is
  modelled by an oracle `env : Action → IncomingMessage → Bool × Option String`
  giving each dispatched action its success flag and optional error message.
-/

namespace WaGateway

/-- JS truthiness of an optional string: present and non-empty. -/
def strTruthy : Option String → Bool
  | none => false
  | some s => s ≠ ""

/-!
String primitives.  The JS string operations the gateway uses are embedded
over the character list of the string (so that every definition evaluates by
kernel reduction on concrete inputs).
-/

/-- `toLowerCase` (ASCII folding). -/
def jsLower (s : String) : String := ⟨s.toList.map Char.toLower⟩

/-- `toUpperCase` (ASCII folding). -/
def jsUpper (s : String) : String := ⟨s.toList.map Char.toUpper⟩

/-- Does the second list start with the first? -/
def startsList : List Char → List Char → Bool
  | [], _ => true
  | _ :: _, [] => false
  | p :: ps, c :: cs => p = c && startsList ps cs

/-- Does the first list occur contiguously inside the second? -/
def hasSublist (pat : List Char) : List Char → Bool
  | [] => startsList pat []
  | c :: cs => startsList pat (c :: cs) || hasSublist pat cs

/-- `a.includes(b)` on JS strings. -/
def strIncludes (s pat : String) : Bool :=
  hasSublist pat.toList s.toList

/-- `a.startsWith(b)` on JS strings. -/
def jsStartsWith (s pat : String) : Bool :=
  startsList pat.toList s.toList

/-- `a.endsWith(b)` on JS strings (also the semantics of
`LIKE '%suffix'`). -/
def jsEndsWith (s pat : String) : Bool :=
  startsList pat.toList.reverse s.toList.reverse

/-- `a.substring(0, n)` on JS strings (all texts used here are ASCII, so
code-unit and character counting agree). -/
def jsTake (s : String) (n : Nat) : String := ⟨s.toList.take n⟩

/-- One entry of a rule's `actions` list (engine `Rule['actions'][0]`).
`target` holds the `target.entity_id` field, the only part of `target` the
engine reads. -/
structure Action where
  type : String
  service : Option String := none
  target : Option String := none
  text : Option String := none
deriving DecidableEq

/-- The `match.chat` clause of a rule. -/
structure ChatClause where
  type : Option String := none
  ids : Option (List String) := none
deriving DecidableEq

/-- The `match.sender` clause of a rule.  `numbers` occurs in operator-authored
rule YAML (and in the management UI) but `matchRule` never reads it. -/
structure SenderClause where
  ids : Option (List String) := none
  numbers : Option (List String) := none
deriving DecidableEq

/-- The `match.text` clause of a rule. -/
structure TextClause where
  contains : Option (List String) := none
  starts_with : Option String := none
  regex : Option String := none
deriving DecidableEq

/-- The `match` clause of a rule.  `events` occurs in operator-authored rule
YAML (and in the management UI) but `matchRule` never reads it. -/
structure MatchClause where
  events : Option (List String) := none
  chat : Option ChatClause := none
  sender : Option SenderClause := none
  text : Option TextClause := none
deriving DecidableEq

/-- A parsed rule. -/
structure Rule where
  id : String
  name : String
  enabled : Bool := true
  priority : Option Int := none
  stop_on_match : Option Bool := none
  match_ : MatchClause
  actions : List Action := []
  cooldown_seconds : Option Int := none
deriving DecidableEq

/-- A parsed rule set (`RuleSet`). -/
structure RuleSet where
  version : Int := 1
  rules : List Rule := []
deriving DecidableEq

/-- The engine's `IncomingMessage`.  The webhook ingestor of
`routes/webhook.ts` also sets `event` (the normalised event kind); the engine
embedded here never reads it. -/
structure IncomingMessage where
  chatId : String
  chatType : String
  senderId : String
  senderName : Option String := none
  text : String
  messageId : Option String := none
  event : Option String := none
deriving DecidableEq

/-- Result of `matchRule`.  The source field `matches` is a Lean keyword and is
rendered `matched` here. -/
structure MatchResult where
  matched : Bool
  reason : String
deriving DecidableEq

/-!
`RuleEngine.matchRule` (evolution.ts lines 589–656) is a sequence of guarded
checks over a mutable `reasons` list; every failing check executes
`return { matches: false, reason: '' }`.  Each check is embedded as a function
`List String → Option (List String)` threading the accumulated reasons, with
`none` standing for that early return; `matchRule` chains them with
`Option.bind`.
-/

/-- The `// Match chat type` check: skipped unless `chat.type` is truthy and
differs from `'any'`. -/
def chatTypeCheck (rule : Rule) (message : IncomingMessage)
    (reasons : List String) : Option (List String) :=
  match rule.match_.chat with
  | some chat =>
    match chat.type with
    | some t =>
      if t ≠ "" ∧ t ≠ "any" then
        if t ≠ message.chatType then none
        else some (reasons ++ ["chat type is " ++ message.chatType])
      else some reasons
    | none => some reasons
  | none => some reasons

/-- The `// Match chat IDs` check: skipped unless `chat.ids` is a non-empty
list. -/
def chatIdsCheck (rule : Rule) (message : IncomingMessage)
    (reasons : List String) : Option (List String) :=
  match rule.match_.chat with
  | some chat =>
    match chat.ids with
    | some ids =>
      if ids.length > 0 then
        if ¬ ids.contains message.chatId then none
        else some (reasons ++ ["chat ID matches"])
      else some reasons
    | none => some reasons
  | none => some reasons

/-- The `// Match sender IDs` check: skipped unless `sender.ids` is a
non-empty list.  (No part of `matchRule` reads `sender.numbers`.) -/
def senderIdsCheck (rule : Rule) (message : IncomingMessage)
    (reasons : List String) : Option (List String) :=
  match rule.match_.sender with
  | some sender =>
    match sender.ids with
    | some ids =>
      if ids.length > 0 then
        if ¬ ids.contains message.senderId then none
        else some (reasons ++ ["sender ID matches"])
      else some reasons
    | none => some reasons
  | none => some reasons

/-- The `// Contains check` of the text clause (`tc`), over the lowercased
message text. -/
def containsCheck (tc : TextClause) (text : String)
    (reasons : List String) : Option (List String) :=
  match tc.contains with
  | some pats =>
    if pats.length > 0 then
      if ¬ pats.any (fun c => strIncludes text (jsLower c)) then none
      else some (reasons ++ ["text contains keyword"])
    else some reasons
  | none => some reasons

/-- The `// Starts with check`: skipped unless `starts_with` is truthy. -/
def startsCheck (tc : TextClause) (text : String)
    (reasons : List String) : Option (List String) :=
  match tc.starts_with with
  | some p =>
    if p ≠ "" then
      if ¬ jsStartsWith text (jsLower p) then none
      else some (reasons ++ ["text starts with \"" ++ p ++ "\""])
    else some reasons
  | none => some reasons

/-- The `// Regex check`: skipped unless `regex` is truthy; an uncompilable
pattern is caught and reported as not matching; the compiled regex is tested
against the original (non-lowercased) message text. -/
def regexCheck (compileRegex : String → Option (String → Bool))
    (tc : TextClause) (originalText : String)
    (reasons : List String) : Option (List String) :=
  match tc.regex with
  | some pat =>
    if pat ≠ "" then
      match compileRegex pat with
      | some test =>
        if ¬ test originalText then none
        else some (reasons ++ ["text matches regex"])
      | none => none
    else some reasons
  | none => some reasons

/-- The `// Match text content` block: the three text checks over
`message.text.toLowerCase()`, guarded by the presence of the text clause. -/
def textCheck (compileRegex : String → Option (String → Bool))
    (rule : Rule) (message : IncomingMessage)
    (reasons : List String) : Option (List String) :=
  match rule.match_.text with
  | some tc =>
    let text := jsLower message.text
    (containsCheck tc text reasons).bind fun rs =>
      (startsCheck tc text rs).bind fun rs2 =>
        regexCheck compileRegex tc message.text rs2
  | none => some reasons

/-- `RuleEngine.matchRule`: the chained checks, then the final
`matches: reasons.length > 0 || (!rule.match.chat && !rule.match.sender && !rule.match.text)`
with `reason: reasons.join(', ') || 'no specific conditions (matches all)'`. -/
def matchRule (compileRegex : String → Option (String → Bool))
    (rule : Rule) (message : IncomingMessage) : MatchResult :=
  match (chatTypeCheck rule message []).bind (fun rs =>
          (chatIdsCheck rule message rs).bind (fun rs2 =>
            (senderIdsCheck rule message rs2).bind
              (textCheck compileRegex rule message))) with
  | none => { matched := false, reason := "" }
  | some reasons =>
    { matched := reasons.length > 0 ∨
        (rule.match_.chat = none ∧ rule.match_.sender = none ∧ rule.match_.text = none),
      reason :=
        if reasons.isEmpty then "no specific conditions (matches all)"
        else String.intercalate ", " reasons }

/-- `(a.priority || 100)`: a missing priority, and (by JS falsiness) a priority
of `0`, count as `100`. -/
def prioOf (r : Rule) : Int :=
  match r.priority with
  | none => 100
  | some p => if p = 0 then 100 else p

/-- The rule list both `testMessage` and `processMessage` iterate:
`[...rules].filter(r => r.enabled).sort((a, b) => (a.priority || 100) - (b.priority || 100))`. -/
def sortedEnabled (rules : List Rule) : List Rule :=
  (rules.filter (·.enabled)).insertionSort (fun a b => prioOf a ≤ prioOf b)

/-- One entry of `TestResult.matchedRules`. -/
structure MatchedRuleInfo where
  id : String
  name : String
  reason : String
deriving DecidableEq

/-- One entry of `TestResult.actionsPreview`. -/
structure ActionPreview where
  ruleId : String
  type : String
  details : String
deriving DecidableEq

/-- `RuleEngine.testMessage`'s result. -/
structure TestResult where
  matchedRules : List MatchedRuleInfo
  actionsPreview : List ActionPreview
deriving DecidableEq

/-- `RuleEngine.describeAction` (a JS template renders a missing field as the
string "undefined"; `action.target?.entity_id || 'no target'` falls back on an
absent or empty entity id). -/
def describeAction (action : Action) : String :=
  if action.type = "ha_service" then
    let target :=
      match action.target with
      | some t => if t = "" then "no target" else t
      | none => "no target"
    "Call " ++ (action.service.getD "undefined") ++ " on " ++ target
  else if action.type = "reply_whatsapp" then
    match action.text with
    | some t =>
      "Reply: \"" ++ jsTake t 50 ++ (if t.length > 50 then "..." else "") ++ "\""
    | none => "Reply: \"undefined\""
  else action.type

/-- The `for (const rule of sortedRules)` loop of `RuleEngine.testMessage`,
as structural recursion over the sorted rule list.  The loop `break`s after a
matching rule with `stop_on_match !== false`. -/
def testLoop (compileRegex : String → Option (String → Bool))
    (message : IncomingMessage) : List Rule → TestResult
  | [] => { matchedRules := [], actionsPreview := [] }
  | rule :: rest =>
    let mr := matchRule compileRegex rule message
    if mr.matched then
      let entry : MatchedRuleInfo := { id := rule.id, name := rule.name, reason := mr.reason }
      let previews := rule.actions.map fun a =>
        ({ ruleId := rule.id, type := a.type, details := describeAction a } : ActionPreview)
      if rule.stop_on_match ≠ some false then
        { matchedRules := [entry], actionsPreview := previews }
      else
        let r := testLoop compileRegex message rest
        { matchedRules := entry :: r.matchedRules,
          actionsPreview := previews ++ r.actionsPreview }
    else testLoop compileRegex message rest

/-- `RuleEngine.testMessage` (evolution.ts lines 504–542): match only, no
action execution, no store access. -/
def testMessage (compileRegex : String → Option (String → Bool))
    (rulesCache : Option RuleSet) (message : IncomingMessage) : TestResult :=
  match rulesCache with
  | none => { matchedRules := [], actionsPreview := [] }
  | some rs => testLoop compileRegex message (sortedEnabled rs.rules)

/-! ### The store (tables touched by the engine) -/

/-- A row of `wa_cooldown` (unique key `(rule_id, scope_key)`). -/
structure Cooldown where
  ruleId : String
  scopeKey : String
  expiresAt : Int
deriving DecidableEq

/-- One serialised per-action result inside a `wa_rule_fire` row. -/
structure ActionResult where
  type : String
  success : Bool
  error : Option String := none
deriving DecidableEq

/-- A row of `wa_rule_fire`. -/
structure RuleFire where
  ruleId : String
  ruleName : String
  messageId : Option Nat
  chatId : String
  senderId : String
  matchedText : String
  actionsExecuted : List ActionResult
  success : Bool
  errorMessage : Option String
deriving DecidableEq

/-- A row of `wa_message` (the fields the claims mention). -/
structure MessageRow where
  id : Nat
  providerMessageId : String
  chatId : String
  senderId : String
  text : String
  processed : Bool
deriving DecidableEq

/-- The durable tables the rule engine touches.  Rows are kept in insertion
order. -/
structure Store where
  messages : List MessageRow := []
  ruleFires : List RuleFire := []
  cooldowns : List Cooldown := []
deriving DecidableEq

/-- `DELETE FROM wa_cooldown WHERE expires_at < NOW()` (first statement of
`RuleEngine.isOnCooldown`). -/
def sweepCooldowns (now : Int) (st : Store) : Store :=
  { st with cooldowns := st.cooldowns.filter fun cd => ¬ cd.expiresAt < now }

/-- The SELECT of `RuleEngine.isOnCooldown`:
`rule_id = ? AND scope_key = ? AND expires_at > NOW()`. -/
def cooldownActive (now : Int) (ruleId scopeKey : String) (st : Store) : Bool :=
  st.cooldowns.any fun cd =>
    cd.ruleId = ruleId ∧ cd.scopeKey = scopeKey ∧ now < cd.expiresAt

/-- `RuleEngine.setCooldown` (evolution.ts lines 717–723):
`INSERT ... ON DUPLICATE KEY UPDATE expires_at = NOW() + INTERVAL ? SECOND`
over the unique key `(rule_id, scope_key)`. -/
def setCooldown (now : Int) (ruleId scopeKey : String) (seconds : Int)
    (st : Store) : Store :=
  { st with cooldowns :=
      (st.cooldowns.filter fun cd => ¬ (cd.ruleId = ruleId ∧ cd.scopeKey = scopeKey)) ++
      [{ ruleId := ruleId, scopeKey := scopeKey, expiresAt := now + seconds }] }

/-- `RuleEngine.executeActions` (evolution.ts lines 661–697).  A result row is
pushed only for an `ha_service` action with a truthy `service` or a
`reply_whatsapp` action with a truthy `text`; the outcome of the dispatched
call (success flag and error, covering thrown exceptions) comes from the
oracle `env`. -/
def executeActions (env : Action → IncomingMessage → Bool × Option String)
    (rule : Rule) (message : IncomingMessage) : List ActionResult :=
  rule.actions.filterMap fun a =>
    if (a.type = "ha_service" ∧ strTruthy a.service) ∨
       (a.type = "reply_whatsapp" ∧ strTruthy a.text) then
      some { type := a.type, success := (env a message).1, error := (env a message).2 }
    else none

/-- `RuleEngine.logRuleFire` (evolution.ts lines 728–753).  JS `Array.join`
renders a missing error as the empty string, and `errors || null` stores NULL
for an empty join. -/
def logRuleFire (rule : Rule) (message : IncomingMessage)
    (dbMessageId : Option Nat) (results : List ActionResult) (st : Store) : Store :=
  let allSuccess := results.all (·.success)
  let errors := String.intercalate "; "
    ((results.filter fun r => ¬ r.success).map fun r => r.error.getD "")
  { st with ruleFires := st.ruleFires ++
      [{ ruleId := rule.id, ruleName := rule.name, messageId := dbMessageId,
         chatId := message.chatId, senderId := message.senderId,
         matchedText := jsTake message.text 500, actionsExecuted := results,
         success := allSuccess,
         errorMessage := if errors = "" then none else some errors }] }

/-- The `// Set cooldown if configured` step of `processMessage`:
`if (rule.cooldown_seconds && rule.cooldown_seconds > 0) setCooldown(...)`
(JS truthiness plus the comparison). -/
def cooldownStep (now : Int) (rule : Rule) (chatId : String) (st : Store) : Store :=
  match rule.cooldown_seconds with
  | some c => if c ≠ 0 ∧ 0 < c then setCooldown now rule.id chatId c st else st
  | none => st

/-- The `for (const rule of sortedRules)` loop of `RuleEngine.processMessage`:
cooldown check (which first sweeps expired rows) before matching; a rule on
cooldown is skipped with `continue`; on match the actions are executed, the
fire is logged, the cooldown is set when `cooldown_seconds > 0`, and the loop
`break`s when `stop_on_match !== false`. -/
def processLoop (compileRegex : String → Option (String → Bool))
    (env : Action → IncomingMessage → Bool × Option String)
    (now : Int) (message : IncomingMessage) (dbMessageId : Option Nat) :
    List Rule → Store → Store
  | [], st => st
  | rule :: rest, st =>
    let st1 := sweepCooldowns now st
    if cooldownActive now rule.id message.chatId st1 then
      processLoop compileRegex env now message dbMessageId rest st1
    else
      let mr := matchRule compileRegex rule message
      if mr.matched then
        let results := executeActions env rule message
        let st2 := logRuleFire rule message dbMessageId results st1
        let st3 := cooldownStep now rule message.chatId st2
        if rule.stop_on_match ≠ some false then st3
        else processLoop compileRegex env now message dbMessageId rest st3
      else processLoop compileRegex env now message dbMessageId rest st1

/-- `RuleEngine.processMessage` (evolution.ts lines 547–584). -/
def processMessage (compileRegex : String → Option (String → Bool))
    (env : Action → IncomingMessage → Bool × Option String)
    (now : Int) (rulesCache : Option RuleSet) (message : IncomingMessage)
    (dbMessageId : Option Nat) (st : Store) : Store :=
  match rulesCache with
  | none => st
  | some rs => processLoop compileRegex env now message dbMessageId (sortedEnabled rs.rules) st

/-- State-passing form of a call to `testMessage`: the method body contains no
database statement, so the call returns the store exactly as it received it. -/
def testMessageCall (compileRegex : String → Option (String → Bool))
    (rulesCache : Option RuleSet) (message : IncomingMessage) (st : Store) :
    TestResult × Store :=
  (testMessage compileRegex rulesCache message, st)

/-! ### YAML validation and rule-set persistence -/

/-- A `ValidationError` (`engine/types.ts` shape used by `validateYaml`). -/
structure ValidationError where
  path : String
  message : String
  line : Option Nat := none
deriving DecidableEq

/-- A `ValidationResult`. -/
structure ValidationResult where
  valid : Bool
  errors : List ValidationError
  ruleCount : Nat
  normalizedYaml : Option String := none
deriving DecidableEq

/-- The `js-yaml` library as the engine uses it: `load` returns `none` where
`yaml.load` throws (a syntax error), `errMessage`/`errLine` give the thrown
error's `message` and optional `mark.line`, and `dump` is `yaml.dump(parsed,
{indent: 2})`.  `yaml.load`'s default schema is `DEFAULT_SCHEMA`, so the load
in `validateYaml` and the load in `saveRules` agree. -/
structure YamlLib where
  load : String → Option RuleSet
  errMessage : String → String
  errLine : String → Option Nat
  dump : RuleSet → String

/-- The ajv validator compiled from `RULE_SCHEMA` (the schema constant lives in
`engine/types.ts`): the structured errors it reports for a parsed document. -/
structure AjvLib where
  schemaErrors : RuleSet → List ValidationError

/-- The per-action errors of `validateYaml`'s inner loop: an `ha_service`
action needs a truthy `service`, a `reply_whatsapp` action a truthy `text`. -/
def actionErrors (i : Nat) : Nat → List Action → List ValidationError
  | _, [] => []
  | j, action :: rest =>
    (if action.type = "ha_service" ∧ ¬ strTruthy action.service then
      [{ path := "rules[" ++ toString i ++ "].actions[" ++ toString j ++ "].service",
         message := "ha_service action requires a service field" }]
     else []) ++
    (if action.type = "reply_whatsapp" ∧ ¬ strTruthy action.text then
      [{ path := "rules[" ++ toString i ++ "].actions[" ++ toString j ++ "].text",
         message := "reply_whatsapp action requires a text field" }]
     else []) ++
    actionErrors i (j + 1) rest

/-- The `for (let i = 0; ...)` loop of `validateYaml`: duplicate-id errors
(against the running `ids` set) followed by the action errors of each rule. -/
def extraErrors : List String → Nat → List Rule → List ValidationError
  | _, _, [] => []
  | seen, i, rule :: rest =>
    (if seen.contains rule.id then
      [{ path := "rules[" ++ toString i ++ "].id",
         message := "Duplicate rule ID: " ++ rule.id }]
     else []) ++
    actionErrors i 0 rule.actions ++
    extraErrors (seen ++ [rule.id]) (i + 1) rest

/-- `RuleEngine.validateYaml` (evolution.ts lines 393–465): parse (syntax
errors give one structured error with empty path), then ajv schema errors,
then duplicate-id and action errors; `valid` iff no error; `normalizedYaml` is
the round-tripped dump when valid. -/
def validateYaml (y : YamlLib) (ajv : AjvLib) (yamlText : String) : ValidationResult :=
  match y.load yamlText with
  | none =>
    { valid := false,
      errors := [{ path := "",
                   message := "YAML syntax error: " ++ y.errMessage yamlText,
                   line := y.errLine yamlText }],
      ruleCount := 0 }
  | some parsed =>
    let errors := ajv.schemaErrors parsed ++ extraErrors [] 0 parsed.rules
    { valid := errors.isEmpty,
      errors := errors,
      ruleCount := parsed.rules.length,
      normalizedYaml := if errors.isEmpty then some (y.dump parsed) else none }

/-- The singleton `wa_ruleset` row. -/
structure RulesetRow where
  yamlText : String
  parsedJson : Option RuleSet
  version : Int
  updatedAt : Int
deriving DecidableEq

/-- The engine state `saveRules` touches: the `wa_ruleset` row and the
in-memory `rulesCache`. -/
structure EngineState where
  row : RulesetRow
  rulesCache : Option RuleSet

/-- `RuleEngine.saveRules` (evolution.ts lines 470–491): validate; on failure
return the validation without touching anything; on success re-parse the text,
run `UPDATE wa_ruleset SET yaml_text = ?, parsed_json = ?, version = version +
1, updated_at = NOW() WHERE id = 1` and replace the cache.  (When validation
succeeded the parse cannot fail; the `none` branch is dead.) -/
def saveRules (y : YamlLib) (ajv : AjvLib) (now : Int) (yamlText : String)
    (st : EngineState) : ValidationResult × EngineState :=
  let validation := validateYaml y ajv yamlText
  if ¬ validation.valid then (validation, st)
  else
    match y.load yamlText with
    | none => (validation, st)
    | some parsed =>
      (validation,
       { row := { yamlText := yamlText, parsedJson := some parsed,
                  version := st.row.version + 1, updatedAt := now },
         rulesCache := some parsed })

/-! ### Webhook helpers and chat-sync reconciliation -/

/-- `normaliseEventType` (webhook.ts line 99–101):
`raw.replace(/\./g, '_').toUpperCase()`. -/
def normaliseEventType (raw : String) : String :=
  jsUpper ⟨raw.toList.map fun c => if c = '.' then '_' else c⟩

/-- The normalised event `handleGenericEvent` (webhook.ts lines 274–296) hands
to the engine for a non-message event: empty text, chat kind from the
`@g.us` suffix, the normalised event kind in `event`. -/
def handleGenericEventMessage (eventType chatId senderId : String) : IncomingMessage :=
  { chatId := chatId,
    chatType := if jsEndsWith chatId "@g.us" then "group" else "direct",
    senderId := senderId,
    senderName := some "",
    text := "",
    event := some eventType }

/-- A row of `wa_chat` (the fields the sync touches). -/
structure ChatRow where
  id : String
  type : String
  name : String
  updatedAt : Int
deriving DecidableEq

/-- A chat returned by the provider catalogue fetches. -/
structure SyncChat where
  id : String
  type : String
  name : String
deriving DecidableEq

/-- `id NOT LIKE '%@s.whatsapp.net' AND id NOT LIKE '%@g.us' AND id NOT LIKE
'%@c.us'` negated: the id carries a known valid WhatsApp suffix. -/
def hasValidSuffix (id : String) : Bool :=
  jsEndsWith id "@s.whatsapp.net" ∨ jsEndsWith id "@g.us" ∨ jsEndsWith id "@c.us"

/-- The per-chat upsert of the refresh job (part_009 createWaRoutes, lines
294–312): `INSERT ... ON DUPLICATE KEY UPDATE name = VALUES(name), ...,
updated_at = NOW()` (the chat `type` column is not updated on collision). -/
def upsertChat (now : Int) (c : SyncChat) (table : List ChatRow) : List ChatRow :=
  if table.any fun r => r.id = c.id then
    table.map fun r =>
      if r.id = c.id then { r with type := r.type, name := c.name, updatedAt := now }
      else r
  else table ++ [{ id := c.id, type := c.type, name := c.name, updatedAt := now }]

/-- The stale-record cleanup of the refresh job (part_009 lines 316–320):
`DELETE FROM wa_chat WHERE updated_at < ? OR (id NOT LIKE '%@s.whatsapp.net'
AND id NOT LIKE '%@g.us' AND id NOT LIKE '%@c.us')`, the parameter being the
recorded sync start instant. -/
def cleanupStale (syncStart : Int) (table : List ChatRow) : List ChatRow :=
  table.filter fun r => ¬ (r.updatedAt < syncStart ∨ ¬ hasValidSuffix r.id)

/-- The save-and-reconcile tail of the refresh job: record the sync start
instant, upsert every merged chat (each upsert stamps `updated_at` with the
store clock, which is not before the start instant), then run the cleanup
DELETE. -/
def syncSave (syncStart now : Int) (chats : List SyncChat) (table : List ChatRow) :
    List ChatRow :=
  cleanupStale syncStart (chats.foldl (fun t c => upsertChat now c t) table)

/-! ### Derived notions used by the theorems -/

/-- Number of `wa_rule_fire` rows recorded for a given rule id. -/
def firesFor (ruleId : String) (st : Store) : Nat :=
  (st.ruleFires.filter fun f => f.ruleId = ruleId).length

/-- The numeric part of a sender id: everything before the `@`
(the spec's reading of `sender.numbers` matching). -/
def numericPart (senderId : String) : String :=
  ⟨senderId.toList.takeWhile fun c => c ≠ '@'⟩

/-- A regex oracle under which no pattern compiles (every `new RegExp` call
throws); used for concrete scenarios whose rules carry no regex clause, and
for the uncompilable-pattern scenarios. -/
def noRegex : String → Option (String → Bool) := fun _ => none

/-- An action-dispatch oracle under which every dispatched action succeeds. -/
def okEnv : Action → IncomingMessage → Bool × Option String := fun _ _ => (true, none)

/-! ### C1 — sync reconciliation -/

/-- A chat row with a valid WhatsApp suffix whose `updated_at` predates the
sync start. -/
def staleValidRow : ChatRow :=
  { id := "123@s.whatsapp.net", type := "direct", name := "A", updatedAt := 3 }

/-- An upstream chat whose id lacks a valid WhatsApp suffix. -/
def freshInvalidChat : SyncChat :=
  { id := "bad-id", type := "direct", name := "B" }

/-- C1.  The claim says reconciliation deletes exactly the rows that are BOTH
older than the sync start AND without a valid suffix, so that every row with a
valid suffix and every row upserted during the sync survives.  The code's
DELETE joins the two conditions with OR: with sync start 10, a valid-suffix
row last updated at 3 is deleted, and the row upserted during the sync (at
instant 10, hence not older than the start) for an invalid-suffix upstream
chat is deleted as well — the reconciled table is empty although the claim
requires both rows to survive.  This contradicts the code's own comment
("Only delete records with old IDs that don't have valid WhatsApp format")
and spec P8. -/
theorem sync_reconcile_or_deletes_valid_and_fresh_rows :
    hasValidSuffix staleValidRow.id = true
    ∧ staleValidRow.updatedAt < 10
    ∧ hasValidSuffix freshInvalidChat.id = false
    ∧ syncSave 10 10 [freshInvalidChat] [staleValidRow] = [] := by
  refine ⟨by decide, by decide, by decide, by decide⟩

/-! ### C2 — the `events` subscription list -/

/-- A rule that enumerates `events: [MESSAGES_UPSERT]` and has no other match
condition. -/
def ruleSubscribed : Rule :=
  { id := "r-sub", name := "subscribed",
    match_ := { events := some ["MESSAGES_UPSERT"] },
    actions := [{ type := "reply_whatsapp", text := some "hi" }] }

/-- The normalised event `handleGenericEvent` builds for a provider `call`
event. -/
def genericCallMessage : IncomingMessage :=
  handleGenericEventMessage (normaliseEventType "call")
    "31612345678@s.whatsapp.net" "31612345678@s.whatsapp.net"

/-- C2.  The claim says a rule that enumerates an `events` list matches only
events whose kind appears in the list, so a `CALL` event (delivered with empty
text) must not fire a rule subscribed only to `MESSAGES_UPSERT`.  `matchRule`
never reads `match.events`: the subscribed rule matches the normalised `CALL`
event and `processMessage` records a rule fire for it, although
`"CALL" ∉ ["MESSAGES_UPSERT"]`.  The webhook's own comment ("still run them
through the rule engine if any rule subscribes to that event type") and the
`event` field it passes to the engine document the intended filtering. -/
theorem events_list_ignored_by_match :
    ruleSubscribed.match_.events = some ["MESSAGES_UPSERT"]
    ∧ genericCallMessage.event = some "CALL"
    ∧ genericCallMessage.text = ""
    ∧ (matchRule noRegex ruleSubscribed genericCallMessage).matched = true
    ∧ firesFor "r-sub"
        (processMessage noRegex okEnv 0 (some { rules := [ruleSubscribed] })
          genericCallMessage none {}) = 1 := by
  refine ⟨rfl, by decide, by decide, by decide, by decide⟩

/-! ### C3 — `sender.numbers` -/

/-- A rule whose sender clause sets both `ids` and `numbers`. -/
def ruleSenderNumbers : Rule :=
  { id := "r-num", name := "nums",
    match_ := { sender := some { ids := some ["alice@x"], numbers := some ["999"] } },
    actions := [] }

/-- A message whose sender id is listed in the rule's `sender.ids` but whose
numeric part is not in its `sender.numbers`. -/
def messageFromAlice : IncomingMessage :=
  { chatId := "c@s.whatsapp.net", chatType := "direct", senderId := "alice@x",
    text := "t" }

/-- C3.  The claim says a rule with a non-empty `sender.numbers` list matches
only events whose sender's numeric part is in the list, and that with both
`sender.ids` and `sender.numbers` configured both conditions must hold.
`matchRule` never reads `sender.numbers`: this rule matches a message whose
sender passes the `ids` check while its numeric part `alice` is not in
`numbers = ["999"]`, so the mandated conjunction fails.  The management UI
documents `sender.numbers` matching, and the spec mandates AND. -/
theorem sender_numbers_ignored_by_match :
    ruleSenderNumbers.match_.sender =
      some { ids := some ["alice@x"], numbers := some ["999"] }
    ∧ numericPart messageFromAlice.senderId = "alice"
    ∧ ("999" :: []).contains (numericPart messageFromAlice.senderId) = false
    ∧ (matchRule noRegex ruleSenderNumbers messageFromAlice).matched = true := by
  refine ⟨rfl, by decide, by decide, by decide⟩

/-! ### C4 — rules without conditions, and `chat.kind: any` -/

/-- A rule with no match conditions at all. -/
def ruleNoCond : Rule := { id := "r-none", name := "none", match_ := {} }

/-- A rule whose only match clause is `chat.kind: any`. -/
def ruleChatAnyOnly : Rule :=
  { id := "r-any", name := "any", match_ := { chat := some { type := some "any" } } }

/-- A direct-chat message. -/
def msgDirect : IncomingMessage :=
  { chatId := "c@s.whatsapp.net", chatType := "direct", senderId := "s@x",
    text := "hello" }

/-- C4, counterexample.  The claim says a rule whose only match clause is
`chat.kind: any` matches every event; on the code it matches none: the `any`
chat type records no reason, so `reasons.length > 0` fails, and the fallback
`!rule.match.chat && !rule.match.sender && !rule.match.text` fails because the
chat clause is present. -/
theorem chat_any_only_rule_matches_nothing :
    (matchRule noRegex ruleChatAnyOnly msgDirect).matched = false := by decide

/-- C4, amended.  A rule with no match conditions matches every event, and a
`chat.kind` of `any` imposes no chat-kind constraint (the match result does
not depend on the event's chat kind); but a rule whose only match clause is
`chat.kind: any` matches no event. -/
theorem match_no_conditions_amended
    (cr : String → Option (String → Bool)) (msg : IncomingMessage)
    (r0 : Rule) (h0c : r0.match_.chat = none) (h0s : r0.match_.sender = none)
    (h0t : r0.match_.text = none)
    (r1 : Rule) (ch1 : ChatClause) (h1 : r1.match_.chat = some ch1)
    (h1ty : ch1.type = some "any") (ct : String)
    (r2 : Rule) (ch2 : ChatClause) (h2 : r2.match_.chat = some ch2)
    (h2ty : ch2.type = some "any") (h2ids : ch2.ids = none)
    (h2s : r2.match_.sender = none) (h2t : r2.match_.text = none) :
    (matchRule cr r0 msg).matched = true
    ∧ matchRule cr r1 msg = matchRule cr r1 { msg with chatType := ct }
    ∧ (matchRule cr r2 msg).matched = false := by
  refine ⟨?_, ?_, ?_⟩
  · simp [matchRule, chatTypeCheck, chatIdsCheck, senderIdsCheck, textCheck,
      h0c, h0s, h0t]
  · simp [matchRule, chatTypeCheck, chatIdsCheck, senderIdsCheck, textCheck,
      h1, h1ty]
  · simp [matchRule, chatTypeCheck, chatIdsCheck, senderIdsCheck, textCheck,
      h2, h2ty, h2ids, h2s, h2t]

/-- C4, witness for the amended theorem. -/
theorem match_no_conditions_amended_witness :
    (matchRule noRegex ruleNoCond msgDirect).matched = true
    ∧ matchRule noRegex ruleChatAnyOnly msgDirect
        = matchRule noRegex ruleChatAnyOnly { msgDirect with chatType := "group" }
    ∧ (matchRule noRegex ruleChatAnyOnly msgDirect).matched = false :=
  match_no_conditions_amended noRegex msgDirect ruleNoCond rfl rfl rfl
    ruleChatAnyOnly { type := some "any" } rfl rfl "group"
    ruleChatAnyOnly { type := some "any" } rfl rfl rfl rfl rfl

/-! ### C5 — text-clause semantics -/

/-- ASCII whitespace, as JS `trim` strips it on the texts considered here. -/
def isWs (c : Char) : Bool := c = ' ' ∨ c = '\t' ∨ c = '\n' ∨ c = '\r'

/-- Whitespace-trimming of both ends. -/
def trimStr (s : String) : String :=
  ⟨((s.toList.dropWhile isWs).reverse.dropWhile isWs).reverse⟩

/-- C5's text semantics exactly as the claim words them (spec-side definition,
for comparison with the code): `contains` and `starts_with` compare
case-insensitively against the whitespace-trimmed text, each matching when at
least one pattern does; `regex` matches when a pattern compiled
case-insensitively matches.  On the engine's rule shape `starts_with` and
`regex` carry a single pattern, read as a one-element pattern list; absent or
JS-falsy sub-clauses constrain nothing. -/
def claimTextMatches (cr : String → Option (String → Bool))
    (tc : TextClause) (text : String) : Bool :=
  let t := jsLower (trimStr text)
  (match tc.contains with
   | some pats => pats.length = 0 || pats.any fun p => strIncludes t (jsLower p)
   | none => true) &&
  (match tc.starts_with with
   | some p => p = "" || jsStartsWith t (jsLower p)
   | none => true) &&
  (match tc.regex with
   | some p =>
     p = "" || (match cr p with | some test => test text | none => false)
   | none => true)

/-- The text clause `starts_with: Hi`. -/
def tcStartsHi : TextClause := { starts_with := some "Hi" }

/-- A rule whose only match clause is `tcStartsHi`. -/
def ruleStartsHi : Rule :=
  { id := "r-hi", name := "hi", match_ := { text := some tcStartsHi } }

/-- A message whose text carries leading whitespace. -/
def msgLeadingSpace : IncomingMessage :=
  { chatId := "c@s.whatsapp.net", chatType := "direct", senderId := "s@x",
    text := " hi there" }

/-- C5, counterexample.  The claim's semantics trim the compared text, so
`starts_with: Hi` must match the text `" hi there"`; the code lowercases but
never trims, and reports no match. -/
theorem text_match_trim_counterexample :
    (matchRule noRegex ruleStartsHi msgLeadingSpace).matched = false
    ∧ claimTextMatches noRegex tcStartsHi msgLeadingSpace.text = true := by
  exact ⟨by decide, by decide⟩

/-- The text semantics the code implements (amended C5): comparison is
case-insensitive but nothing is trimmed; `contains` takes a list of patterns
of which one must be a substring of the lowercased text; `starts_with` and
`regex` each take a single pattern, the former checked as a prefix of the
lowercased text, the latter compiled case-insensitively (an uncompilable
pattern matches nothing); every JS-truthy sub-clause must pass, and a text
clause none of whose sub-clauses is truthy matches nothing. -/
def codeTextMatches (cr : String → Option (String → Bool))
    (tc : TextClause) (text : String) : Bool :=
  let t := jsLower text
  let hasContains : Bool := match tc.contains with | some ps => ps.length > 0 | none => false
  let hasStarts : Bool := strTruthy tc.starts_with
  let hasRegex : Bool := strTruthy tc.regex
  (hasContains || hasStarts || hasRegex) &&
  (!hasContains || (tc.contains.getD []).any fun p => strIncludes t (jsLower p)) &&
  (!hasStarts || jsStartsWith t (jsLower (tc.starts_with.getD ""))) &&
  (!hasRegex ||
    (match cr (tc.regex.getD "") with | some test => test text | none => false))

/-- C5, amended.  For a rule whose only match clause is a text clause,
`matchRule` decides exactly `codeTextMatches`. -/
theorem text_match_code_semantics
    (cr : String → Option (String → Bool)) (r : Rule) (msg : IncomingMessage)
    (tc : TextClause) (hc : r.match_.chat = none) (hs : r.match_.sender = none)
    (ht : r.match_.text = some tc) :
    (matchRule cr r msg).matched = codeTextMatches cr tc msg.text := by
  rcases tc with ⟨co, sw, rx⟩
  rcases co with _ | ps <;> rcases sw with _ | p <;> rcases rx with _ | q <;>
    simp [matchRule, chatTypeCheck, chatIdsCheck, senderIdsCheck, textCheck,
      containsCheck, startsCheck, regexCheck, codeTextMatches, strTruthy,
      hc, hs, ht] <;>
    split_ifs <;>
    (try cases hq : cr q) <;>
    simp_all [Option.bind] <;>
    split <;> simp_all <;>
    (try (rename_i heq; rw [← heq.2]; simp)) <;> (try assumption)

/-- C5, witness for the amended theorem. -/
theorem text_match_code_semantics_witness :
    (matchRule noRegex ruleStartsHi msgLeadingSpace).matched
      = codeTextMatches noRegex tcStartsHi msgLeadingSpace.text :=
  text_match_code_semantics noRegex ruleStartsHi msgLeadingSpace tcStartsHi
    rfl rfl rfl

/-! ### C7 — saving a rule set -/

/-- C7.  `saveRules` returns exactly the verdict of `validateYaml`; on an
invalid input the stored rule-set row (its YAML text, parsed JSON, version and
update instant) and the in-memory cache are unchanged; on a valid input the
saved YAML is the input text, the version strictly increases (by exactly one),
and the engine's cache equals the parse of the saved YAML text. -/
theorem save_rules_validation_gate (y : YamlLib) (ajv : AjvLib) (now : Int)
    (yamlText : String) (st : EngineState) :
    ((saveRules y ajv now yamlText st).1 = validateYaml y ajv yamlText)
    ∧ ((validateYaml y ajv yamlText).valid = false →
        (saveRules y ajv now yamlText st).2 = st)
    ∧ ((validateYaml y ajv yamlText).valid = true →
        (saveRules y ajv now yamlText st).2.row.yamlText = yamlText
        ∧ (saveRules y ajv now yamlText st).2.row.version = st.row.version + 1
        ∧ st.row.version < (saveRules y ajv now yamlText st).2.row.version
        ∧ (saveRules y ajv now yamlText st).2.rulesCache = y.load yamlText
        ∧ y.load (saveRules y ajv now yamlText st).2.row.yamlText
            = (saveRules y ajv now yamlText st).2.rulesCache) := by
  cases h : y.load yamlText with
  | none =>
    refine ⟨?_, ?_, ?_⟩ <;> simp [saveRules, validateYaml, h]
  | some parsed =>
    by_cases hv : (ajv.schemaErrors parsed ++ extraErrors [] 0 parsed.rules).isEmpty
    · refine ⟨?_, ?_, fun _ => ⟨?_, ?_, ?_, ?_, ?_⟩⟩ <;>
        simp [saveRules, validateYaml, h, hv]
    · refine ⟨?_, ?_, ?_⟩ <;> simp [saveRules, validateYaml, h, hv]

/-- C7's witness: a concrete YAML library and validator under which the text
`"v1"` parses to the empty rule set and validates, so saving bumps the version
from 4 to 5 and caches the parse of the saved text. -/
def yamlLibW : YamlLib :=
  { load := fun s => if s = "v1" then some { version := 1, rules := [] } else none,
    errMessage := fun _ => "unexpected end", errLine := fun _ => none,
    dump := fun _ => "v1" }

/-- A validator that reports no schema error. -/
def ajvNone : AjvLib := { schemaErrors := fun _ => [] }

/-- C7, witness. -/
theorem save_rules_validation_gate_witness :
    (saveRules yamlLibW ajvNone 7 "v1"
        { row := { yamlText := "old", parsedJson := none, version := 4, updatedAt := 0 },
          rulesCache := none }).2.row.version = 4 + 1
    ∧ (saveRules yamlLibW ajvNone 7 "v1"
        { row := { yamlText := "old", parsedJson := none, version := 4, updatedAt := 0 },
          rulesCache := none }).2.rulesCache = yamlLibW.load "v1" := by
  have h := save_rules_validation_gate yamlLibW ajvNone 7 "v1"
    { row := { yamlText := "old", parsedJson := none, version := 4, updatedAt := 0 },
      rulesCache := none }
  have hv : (validateYaml yamlLibW ajvNone "v1").valid = true := by decide
  exact ⟨(h.2.2 hv).2.1, (h.2.2 hv).2.2.2.1⟩

/-! ### C9 — uncompilable regex patterns -/

/-- A rule set whose single rule carries the given regex pattern and a
well-formed action. -/
def rsWithRegex (pat : String) : RuleSet :=
  { rules := [{ id := "r", name := "n",
                match_ := { text := some { regex := some pat } },
                actions := [{ type := "reply_whatsapp", text := some "ok" }] }] }

/-- A YAML library whose parse of every text is the given rule set. -/
def yamlLibOf (rs : RuleSet) : YamlLib :=
  { load := fun _ => some rs, errMessage := fun _ => "", errLine := fun _ => none,
    dump := fun _ => "" }

/-- C9.  A rule whose truthy `text.regex` pattern does not compile is reported
as not matching (the thrown constructor error is caught; `matchRule` is total
and returns `matches: false`), for every message; and `validateYaml` never
consults regex compilability: a rule set whose only rule carries such a
pattern passes the engine's own validation (duplicate-id and action checks)
whenever the abstract schema validator reports no error, so a saved rule set
may contain a rule that can never match. -/
theorem invalid_regex_not_matched_and_not_validated
    (cr : String → Option (String → Bool)) (rule : Rule)
    (msg : IncomingMessage) (tc : TextClause) (pat : String)
    (htc : rule.match_.text = some tc) (hre : tc.regex = some pat)
    (hne : pat ≠ "") (hcomp : cr pat = none) (ajv : AjvLib)
    (hajv : ajv.schemaErrors (rsWithRegex pat) = []) :
    (matchRule cr rule msg).matched = false
    ∧ (validateYaml (yamlLibOf (rsWithRegex pat)) ajv "rules: ...").valid = true := by
  constructor
  · have htx : ∀ rs, textCheck cr rule msg rs = none := by
      intro rs
      have hrc : ∀ rs2, regexCheck cr tc msg.text rs2 = none := by
        intro rs2; simp [regexCheck, hre, hne, hcomp]
      simp only [textCheck, htc]
      rcases containsCheck tc (jsLower msg.text) rs with _ | rs1
      · rfl
      · simp only [Option.some_bind]
        rcases startsCheck tc (jsLower msg.text) rs1 with _ | rs2
        · rfl
        · simp only [Option.some_bind]
          exact hrc rs2
    simp only [matchRule]
    rcases h1 : chatTypeCheck rule msg [] with _ | rs
    · rfl
    · simp only [Option.some_bind]
      rcases h2 : chatIdsCheck rule msg rs with _ | rs2
      · rfl
      · simp only [Option.some_bind]
        rcases h3 : senderIdsCheck rule msg rs2 with _ | rs3
        · rfl
        · simp only [Option.some_bind, htx]
  · simp only [validateYaml, yamlLibOf]
    rw [hajv]
    simp [rsWithRegex, extraErrors, actionErrors, strTruthy]

/-- C9, witness: the pattern `")"` (which `new RegExp` rejects) under an
oracle that compiles nothing, inside a rule that then never matches but whose
rule set validates. -/
theorem invalid_regex_witness :
    (matchRule noRegex
        ((rsWithRegex ")").rules.headD ruleNoCond) msgDirect).matched = false
    ∧ (validateYaml (yamlLibOf (rsWithRegex ")")) ajvNone "rules: ...").valid = true :=
  invalid_regex_not_matched_and_not_validated noRegex
    ((rsWithRegex ")").rules.headD ruleNoCond) msgDirect
    { regex := some ")" } ")" rfl rfl (by decide) rfl ajvNone rfl

/-! ### Lemmas about `processLoop` (for C6 and C10) -/

/-- Some cooldown row for `(rid, key)` is active at `now`. -/
def activeFor (now : Int) (rid key : String) (cds : List Cooldown) : Prop :=
  ∃ cd ∈ cds, cd.ruleId = rid ∧ cd.scopeKey = key ∧ now < cd.expiresAt

/-- `isOnCooldown`'s SELECT decides exactly `activeFor`. -/
theorem cooldownActive_iff {now : Int} {rid key : String} {st : Store} :
    cooldownActive now rid key st = true ↔ activeFor now rid key st.cooldowns := by
  simp [cooldownActive, activeFor, List.any_eq_true]

theorem activeFor_sweep {now : Int} {rid key : String} {st : Store}
    (h : activeFor now rid key st.cooldowns) :
    activeFor now rid key (sweepCooldowns now st).cooldowns := by
  obtain ⟨cd, hmem, h1, h2, h3⟩ := h
  exact ⟨cd, List.mem_filter.2 ⟨hmem, by simp; omega⟩, h1, h2, h3⟩

theorem activeFor_setCooldown_ne {now now' secs : Int} {rid key rid' key' : String}
    {st : Store} (hne : rid ≠ rid')
    (h : activeFor now rid key st.cooldowns) :
    activeFor now rid key (setCooldown now' rid' key' secs st).cooldowns := by
  obtain ⟨cd, hmem, h1, h2, h3⟩ := h
  refine ⟨cd, List.mem_append_left _ (List.mem_filter.2 ⟨hmem, ?_⟩), h1, h2, h3⟩
  simp
  exact Or.inl fun hr => hne (h1.symm.trans hr)

theorem firesFor_sweep {rid : String} {now : Int} {st : Store} :
    firesFor rid (sweepCooldowns now st) = firesFor rid st := rfl

theorem firesFor_setCooldown {rid rid' key' : String} {now secs : Int} {st : Store} :
    firesFor rid (setCooldown now rid' key' secs st) = firesFor rid st := rfl

theorem firesFor_logRuleFire_ne {rid : String} {rule : Rule}
    {m : IncomingMessage} {idm : Option Nat} {res : List ActionResult} {st : Store}
    (h : rule.id ≠ rid) :
    firesFor rid (logRuleFire rule m idm res st) = firesFor rid st := by
  simp [firesFor, logRuleFire, List.filter_append, h]

theorem firesFor_logRuleFire_eq {rid : String} {rule : Rule}
    {m : IncomingMessage} {idm : Option Nat} {res : List ActionResult} {st : Store}
    (h : rule.id = rid) :
    firesFor rid (logRuleFire rule m idm res st) = firesFor rid st + 1 := by
  simp [firesFor, logRuleFire, List.filter_append, h]

theorem firesFor_cooldownStep {rid chat : String} {now : Int} {rule : Rule}
    {st : Store} :
    firesFor rid (cooldownStep now rule chat st) = firesFor rid st := by
  cases hcd : rule.cooldown_seconds with
  | none => simp only [cooldownStep, hcd]
  | some c => simp only [cooldownStep, hcd]; split <;> rfl

theorem activeFor_cooldownStep_ne {now now' : Int} {rid key chat : String}
    {rule : Rule} {st : Store} (hne : rid ≠ rule.id)
    (h : activeFor now rid key st.cooldowns) :
    activeFor now rid key (cooldownStep now' rule chat st).cooldowns := by
  cases hcd : rule.cooldown_seconds with
  | none => simp only [cooldownStep, hcd]; exact h
  | some c =>
    simp only [cooldownStep, hcd]
    split
    · exact activeFor_setCooldown_ne hne h
    · exact h

/-- While a cooldown for `(rid, chat)` is active, a pass of the rule loop
records no fire for `rid`: every rule with that id is skipped before
matching, and the skipped rule does not stop the iteration. -/
theorem processLoop_fires_of_active
    (cr : String → Option (String → Bool))
    (env : Action → IncomingMessage → Bool × Option String)
    (now : Int) (m : IncomingMessage) (idm : Option Nat) (rid : String) :
    ∀ (rules : List Rule) (st : Store),
      activeFor now rid m.chatId st.cooldowns →
      firesFor rid (processLoop cr env now m idm rules st) = firesFor rid st
  | [], _, _ => rfl
  | rule :: rest, st, hact => by
    have hact1 : activeFor now rid m.chatId (sweepCooldowns now st).cooldowns :=
      activeFor_sweep hact
    simp only [processLoop]
    by_cases hc : cooldownActive now rule.id m.chatId (sweepCooldowns now st) = true
    · rw [if_pos hc, processLoop_fires_of_active cr env now m idm rid rest _ hact1]
      rfl
    · rw [if_neg hc]
      have hne : rule.id ≠ rid := fun he => hc (cooldownActive_iff.2 (he ▸ hact1))
      by_cases hm : (matchRule cr rule m).matched = true
      · rw [if_pos hm]
        have hact2 : activeFor now rid m.chatId
            (logRuleFire rule m idm (executeActions env rule m)
              (sweepCooldowns now st)).cooldowns := hact1
        by_cases hstop : rule.stop_on_match ≠ some false
        · rw [if_pos hstop, firesFor_cooldownStep,
            firesFor_logRuleFire_ne hne, firesFor_sweep]
        · rw [if_neg hstop,
            processLoop_fires_of_active cr env now m idm rid rest _
              (activeFor_cooldownStep_ne (Ne.symm hne) hact2),
            firesFor_cooldownStep, firesFor_logRuleFire_ne hne, firesFor_sweep]
      · rw [if_neg hm,
          processLoop_fires_of_active cr env now m idm rid rest _ hact1]
        rfl

/-- A pass over rules none of which has id `rid` records no fire for `rid`. -/
theorem processLoop_fires_of_not_mem
    (cr : String → Option (String → Bool))
    (env : Action → IncomingMessage → Bool × Option String)
    (now : Int) (m : IncomingMessage) (idm : Option Nat) (rid : String) :
    ∀ (rules : List Rule) (st : Store),
      rid ∉ rules.map Rule.id →
      firesFor rid (processLoop cr env now m idm rules st) = firesFor rid st
  | [], _, _ => rfl
  | rule :: rest, st, hmem => by
    have hne : rule.id ≠ rid := fun he => hmem (by simp [he])
    have hrest : rid ∉ rest.map Rule.id := fun hr => hmem (by simp [hr])
    simp only [processLoop]
    by_cases hc : cooldownActive now rule.id m.chatId (sweepCooldowns now st) = true
    · rw [if_pos hc, processLoop_fires_of_not_mem cr env now m idm rid rest _ hrest]
      rfl
    · rw [if_neg hc]
      by_cases hm : (matchRule cr rule m).matched = true
      · rw [if_pos hm]
        by_cases hstop : rule.stop_on_match ≠ some false
        · rw [if_pos hstop, firesFor_cooldownStep,
            firesFor_logRuleFire_ne hne, firesFor_sweep]
        · rw [if_neg hstop,
            processLoop_fires_of_not_mem cr env now m idm rid rest _ hrest,
            firesFor_cooldownStep, firesFor_logRuleFire_ne hne, firesFor_sweep]
      · rw [if_neg hm,
          processLoop_fires_of_not_mem cr env now m idm rid rest _ hrest]
        rfl

/-- With pairwise-distinct rule ids, one pass of the rule loop records at most
one fire for any id (each rule is visited once, and only one rule carries the
id). -/
theorem processLoop_fires_le_one
    (cr : String → Option (String → Bool))
    (env : Action → IncomingMessage → Bool × Option String)
    (now : Int) (m : IncomingMessage) (idm : Option Nat) (rid : String) :
    ∀ (rules : List Rule) (st : Store),
      (rules.map Rule.id).Nodup →
      firesFor rid (processLoop cr env now m idm rules st) ≤ firesFor rid st + 1
  | [], st, _ => Nat.le_succ _
  | rule :: rest, st, hnd => by
    have hndr : (rest.map Rule.id).Nodup := (List.nodup_cons.1 (by simpa using hnd)).2
    have hhd : rule.id ∉ rest.map Rule.id := (List.nodup_cons.1 (by simpa using hnd)).1
    simp only [processLoop]
    by_cases hc : cooldownActive now rule.id m.chatId (sweepCooldowns now st) = true
    · rw [if_pos hc]
      exact processLoop_fires_le_one cr env now m idm rid rest _ hndr
    · rw [if_neg hc]
      by_cases hm : (matchRule cr rule m).matched = true
      · rw [if_pos hm]
        by_cases hid : rule.id = rid
        · by_cases hstop : rule.stop_on_match ≠ some false
          · rw [if_pos hstop, firesFor_cooldownStep,
              firesFor_logRuleFire_eq hid, firesFor_sweep]
          · rw [if_neg hstop,
              processLoop_fires_of_not_mem cr env now m idm rid rest _ (hid ▸ hhd),
              firesFor_cooldownStep, firesFor_logRuleFire_eq hid, firesFor_sweep]
        · by_cases hstop : rule.stop_on_match ≠ some false
          · rw [if_pos hstop, firesFor_cooldownStep,
              firesFor_logRuleFire_ne hid, firesFor_sweep]
            exact Nat.le_succ _
          · rw [if_neg hstop]
            calc firesFor rid (processLoop cr env now m idm rest
                    (cooldownStep now rule m.chatId
                      (logRuleFire rule m idm (executeActions env rule m)
                        (sweepCooldowns now st))))
                ≤ firesFor rid (cooldownStep now rule m.chatId
                    (logRuleFire rule m idm (executeActions env rule m)
                      (sweepCooldowns now st))) + 1 :=
                  processLoop_fires_le_one cr env now m idm rid rest _ hndr
              _ = firesFor rid st + 1 := by
                  rw [firesFor_cooldownStep, firesFor_logRuleFire_ne hid,
                    firesFor_sweep]
      · rw [if_neg hm]
        exact processLoop_fires_le_one cr env now m idm rid rest _ hndr

/-- A cooldown row for an id none of the remaining rules carries, not yet
expired, survives the rest of the pass. -/
theorem processLoop_cooldown_mem
    (cr : String → Option (String → Bool))
    (env : Action → IncomingMessage → Bool × Option String)
    (now : Int) (m : IncomingMessage) (idm : Option Nat) (cd : Cooldown) :
    ∀ (rules : List Rule) (st : Store),
      cd.ruleId ∉ rules.map Rule.id →
      cd ∈ st.cooldowns → now ≤ cd.expiresAt →
      cd ∈ (processLoop cr env now m idm rules st).cooldowns
  | [], _, _, hcd, _ => hcd
  | rule :: rest, st, hmem, hcd, hexp => by
    have hne : cd.ruleId ≠ rule.id := fun he => hmem (by simp [he])
    have hrest : cd.ruleId ∉ rest.map Rule.id := fun hr => hmem (by simp [hr])
    have hsw : cd ∈ (sweepCooldowns now st).cooldowns := by
      refine List.mem_filter.2 ⟨hcd, ?_⟩
      simp
      omega
    have hstep : ∀ st2 : Store, cd ∈ st2.cooldowns →
        cd ∈ (cooldownStep now rule m.chatId st2).cooldowns := by
      intro st2 h2
      cases hc2 : rule.cooldown_seconds with
      | none => simpa only [cooldownStep, hc2] using h2
      | some c =>
        simp only [cooldownStep, hc2]
        split
        · refine List.mem_append_left _ (List.mem_filter.2 ⟨h2, ?_⟩)
          simp
          exact Or.inl hne
        · exact h2
    simp only [processLoop]
    by_cases hc : cooldownActive now rule.id m.chatId (sweepCooldowns now st) = true
    · rw [if_pos hc]
      exact processLoop_cooldown_mem cr env now m idm cd rest _ hrest hsw hexp
    · rw [if_neg hc]
      by_cases hm : (matchRule cr rule m).matched = true
      · rw [if_pos hm]
        have h3 : cd ∈ (cooldownStep now rule m.chatId
            (logRuleFire rule m idm (executeActions env rule m)
              (sweepCooldowns now st))).cooldowns := hstep _ hsw
        by_cases hstop : rule.stop_on_match ≠ some false
        · rw [if_pos hstop]
          exact h3
        · rw [if_neg hstop]
          exact processLoop_cooldown_mem cr env now m idm cd rest _ hrest h3 hexp
      · rw [if_neg hm]
        exact processLoop_cooldown_mem cr env now m idm cd rest _ hrest hsw hexp

/-- One pass either records no fire for `rid`, or leaves a cooldown row
`(rid, chat-of-the-event)` expiring exactly `cooldown_seconds` after the pass
instant (set right after the fire's action dispatch, and preserved by the rest
of the pass). -/
theorem processLoop_fire_sets_cooldown
    (cr : String → Option (String → Bool))
    (env : Action → IncomingMessage → Bool × Option String)
    (now : Int) (m : IncomingMessage) (idm : Option Nat) (rid : String) (c : Int)
    (hcpos : 0 < c) :
    ∀ (rules : List Rule) (st : Store),
      (rules.map Rule.id).Nodup →
      (∀ rule ∈ rules, rule.id = rid → rule.cooldown_seconds = some c) →
      firesFor rid (processLoop cr env now m idm rules st) = firesFor rid st
      ∨ ∃ cd ∈ (processLoop cr env now m idm rules st).cooldowns,
          cd.ruleId = rid ∧ cd.scopeKey = m.chatId ∧ cd.expiresAt = now + c
  | [], st, _, _ => Or.inl rfl
  | rule :: rest, st, hnd, hcool => by
    have hndr : (rest.map Rule.id).Nodup := (List.nodup_cons.1 (by simpa using hnd)).2
    have hhd : rule.id ∉ rest.map Rule.id := (List.nodup_cons.1 (by simpa using hnd)).1
    have hcoolr : ∀ r ∈ rest, r.id = rid → r.cooldown_seconds = some c :=
      fun r hr => hcool r (List.mem_cons_of_mem _ hr)
    simp only [processLoop]
    by_cases hc : cooldownActive now rule.id m.chatId (sweepCooldowns now st) = true
    · rw [if_pos hc]
      rcases processLoop_fire_sets_cooldown cr env now m idm rid c hcpos rest _
          hndr hcoolr with h | h
      · exact Or.inl (h.trans rfl)
      · exact Or.inr h
    · rw [if_neg hc]
      by_cases hm : (matchRule cr rule m).matched = true
      · rw [if_pos hm]
        by_cases hid : rule.id = rid
        · have hcd : rule.cooldown_seconds = some c :=
            hcool rule (List.mem_cons_self _ _) hid
          have hset : cooldownStep now rule m.chatId
              (logRuleFire rule m idm (executeActions env rule m)
                (sweepCooldowns now st))
              = setCooldown now rule.id m.chatId c
                  (logRuleFire rule m idm (executeActions env rule m)
                    (sweepCooldowns now st)) := by
            simp only [cooldownStep, hcd]
            rw [if_pos ⟨by omega, hcpos⟩]
          have hrow : (⟨rule.id, m.chatId, now + c⟩ : Cooldown) ∈
              (cooldownStep now rule m.chatId
                (logRuleFire rule m idm (executeActions env rule m)
                  (sweepCooldowns now st))).cooldowns := by
            rw [hset]
            exact List.mem_append_right _ (List.mem_singleton.2 rfl)
          by_cases hstop : rule.stop_on_match ≠ some false
          · rw [if_pos hstop]
            exact Or.inr ⟨_, hrow, hid, rfl, rfl⟩
          · rw [if_neg hstop]
            refine Or.inr ⟨_, processLoop_cooldown_mem cr env now m idm _ rest _
              ?_ hrow ?_, hid, rfl, rfl⟩
            · exact hid ▸ hhd
            · simp
              omega
        · by_cases hstop : rule.stop_on_match ≠ some false
          · rw [if_pos hstop]
            refine Or.inl ?_
            rw [firesFor_cooldownStep, firesFor_logRuleFire_ne hid, firesFor_sweep]
          · rw [if_neg hstop]
            rcases processLoop_fire_sets_cooldown cr env now m idm rid c hcpos rest _
                hndr hcoolr with h | h
            · refine Or.inl ?_
              rw [h, firesFor_cooldownStep, firesFor_logRuleFire_ne hid,
                firesFor_sweep]
            · exact Or.inr h
      · rw [if_neg hm]
        rcases processLoop_fire_sets_cooldown cr env now m idm rid c hcpos rest _
            hndr hcoolr with h | h
        · exact Or.inl (h.trans rfl)
        · exact Or.inr h

/-- Membership transfers through the sort-and-filter of the engine loops. -/
theorem sortedEnabled_subset {rules : List Rule} {r : Rule}
    (h : r ∈ sortedEnabled rules) : r ∈ rules :=
  List.mem_of_mem_filter ((List.perm_insertionSort _ _).mem_iff.1 h)

/-- Distinctness of rule ids transfers through the sort-and-filter. -/
theorem sortedEnabled_nodup {rules : List Rule}
    (h : (rules.map Rule.id).Nodup) : ((sortedEnabled rules).map Rule.id).Nodup := by
  have hf : ((rules.filter (·.enabled)).map Rule.id).Nodup :=
    List.Nodup.sublist ((List.filter_sublist _).map _) h
  exact ((List.perm_insertionSort _ _).map Rule.id).symm.nodup hf

/-! ### C6 — cooldowns -/

/-- C6.  For a rule with `cooldown_seconds = c > 0` (in a rule set with
pairwise-distinct ids, the data model's invariant) and two events to the same
chat processed strictly sequentially at instants `t1 ≤ t2 < t1 + c`, at most
one rule-fire row is recorded for that rule across the two passes: if the
first pass fires the rule, it installs a cooldown row expiring at `t1 + c`
right after the action dispatch, and the second pass's cooldown check — made
before matching — then skips the rule.  The second conjunct exhibits the skip:
with a cooldown active for the rule, the loop continues past it into the
remaining rules (over the state left by the check's sweep of expired rows)
without stopping the chain. -/
theorem cooldown_single_fire
    (cr : String → Option (String → Bool))
    (env : Action → IncomingMessage → Bool × Option String)
    (rs : RuleSet) (r : Rule) (c t1 t2 : Int)
    (m1 m2 : IncomingMessage) (id1 id2 : Option Nat) (st st0 : Store)
    (rest0 : List Rule) (t0 : Int) (m0 : IncomingMessage) (id0 : Option Nat)
    (hnd : (rs.rules.map Rule.id).Nodup) (hr : r ∈ rs.rules)
    (hc : r.cooldown_seconds = some c) (hcpos : 0 < c)
    (hchat : m2.chatId = m1.chatId) (hseq : t1 ≤ t2) (hlt : t2 < t1 + c)
    (hact0 : cooldownActive t0 r.id m0.chatId (sweepCooldowns t0 st0) = true) :
    firesFor r.id
      (processMessage cr env t2 (some rs) m2 id2
        (processMessage cr env t1 (some rs) m1 id1 st)) ≤ firesFor r.id st + 1
    ∧ processLoop cr env t0 m0 id0 (r :: rest0) st0
        = processLoop cr env t0 m0 id0 rest0 (sweepCooldowns t0 st0) := by
  constructor
  · have hnd' := sortedEnabled_nodup hnd
    have hcool' : ∀ rule ∈ sortedEnabled rs.rules, rule.id = r.id →
        rule.cooldown_seconds = some c := by
      intro rule hmem hid
      have heq : rule = r :=
        List.inj_on_of_nodup_map hnd (sortedEnabled_subset hmem) hr hid
      rw [heq, hc]
    simp only [processMessage]
    rcases processLoop_fire_sets_cooldown cr env t1 m1 id1 r.id c hcpos
        (sortedEnabled rs.rules) st hnd' hcool' with h | h
    · have h2 := processLoop_fires_le_one cr env t2 m2 id2 r.id
        (sortedEnabled rs.rules)
        (processLoop cr env t1 m1 id1 (sortedEnabled rs.rules) st) hnd'
      omega
    · obtain ⟨cd, hmem, hrid, hscope, hexp⟩ := h
      have hactive : activeFor t2 r.id m2.chatId
          (processLoop cr env t1 m1 id1 (sortedEnabled rs.rules) st).cooldowns :=
        ⟨cd, hmem, hrid, hscope.trans hchat.symm, by omega⟩
      have h3 := processLoop_fires_of_active cr env t2 m2 id2 r.id
        (sortedEnabled rs.rules)
        (processLoop cr env t1 m1 id1 (sortedEnabled rs.rules) st) hactive
      have h4 := processLoop_fires_le_one cr env t1 m1 id1 r.id
        (sortedEnabled rs.rules) st hnd'
      omega
  · simp only [processLoop]
    rw [if_pos hact0]

/-- The `ping` rule of the spec's cooldown scenario. -/
def rulePing : Rule :=
  { id := "r-ping", name := "ping",
    match_ := { text := some { contains := some ["ping"] } },
    actions := [{ type := "reply_whatsapp", text := some "pong" }],
    cooldown_seconds := some 60 }

/-- A `ping` message. -/
def msgPing : IncomingMessage :=
  { chatId := "c@s.whatsapp.net", chatType := "direct", senderId := "s@x",
    text := "ping" }

/-- A store holding an active cooldown for `rulePing` in `msgPing`'s chat. -/
def stWithCooldown : Store :=
  { cooldowns := [{ ruleId := "r-ping", scopeKey := "c@s.whatsapp.net",
                    expiresAt := 60 }] }

/-- C6, witness: two `ping` events 10 seconds apart against a 60-second
cooldown rule. -/
theorem cooldown_single_fire_witness :
    firesFor "r-ping"
      (processMessage noRegex okEnv 10 (some { rules := [rulePing] }) msgPing none
        (processMessage noRegex okEnv 0 (some { rules := [rulePing] }) msgPing none
          {})) ≤ firesFor "r-ping" ({} : Store) + 1
    ∧ processLoop noRegex okEnv 10 msgPing none (rulePing :: []) stWithCooldown
        = processLoop noRegex okEnv 10 msgPing none []
            (sweepCooldowns 10 stWithCooldown) :=
  cooldown_single_fire noRegex okEnv { rules := [rulePing] } rulePing 60 0 10
    msgPing msgPing none none {} stWithCooldown [] 10 msgPing none
    (by decide) (by decide) rfl (by decide) rfl (by decide) (by decide) (by decide)

/-! ### C10 — `testMessage` agrees with `processMessage` -/

theorem ruleFires_sweep {now : Int} {st : Store} :
    (sweepCooldowns now st).ruleFires = st.ruleFires := rfl

theorem ruleFires_cooldownStep {now : Int} {rule : Rule} {chat : String}
    {st : Store} :
    (cooldownStep now rule chat st).ruleFires = st.ruleFires := by
  cases hcd : rule.cooldown_seconds with
  | none => simp only [cooldownStep, hcd]
  | some c => simp only [cooldownStep, hcd]; split <;> rfl

theorem mem_cooldownStep_elim {now : Int} {rule : Rule} {chat : String}
    {st : Store} {cd : Cooldown}
    (h : cd ∈ (cooldownStep now rule chat st).cooldowns) :
    cd ∈ st.cooldowns ∨ cd.ruleId = rule.id := by
  cases hcd : rule.cooldown_seconds with
  | none => exact Or.inl (by simpa only [cooldownStep, hcd] using h)
  | some c =>
    simp only [cooldownStep, hcd] at h
    by_cases hcp : c ≠ 0 ∧ 0 < c
    · rw [if_pos hcp] at h
      simp only [setCooldown] at h
      rcases List.mem_append.1 h with h2 | h2
      · exact Or.inl (List.mem_of_mem_filter h2)
      · have heq : cd = { ruleId := rule.id, scopeKey := chat, expiresAt := now + c } :=
          List.mem_singleton.1 h2
        exact Or.inr (by rw [heq])
    · rw [if_neg hcp] at h
      exact Or.inl h

/-- When no still-active cooldown row names any of the rules, the fires a pass
of `processMessage`'s loop appends are, in order, exactly the rules
`testMessage`'s loop reports as matched. -/
theorem processLoop_fires_match_testLoop
    (cr : String → Option (String → Bool))
    (env : Action → IncomingMessage → Bool × Option String)
    (now : Int) (m : IncomingMessage) (idm : Option Nat) :
    ∀ (rules : List Rule) (st : Store),
      (rules.map Rule.id).Nodup →
      (∀ cd ∈ st.cooldowns, now < cd.expiresAt → cd.ruleId ∉ rules.map Rule.id) →
      (processLoop cr env now m idm rules st).ruleFires.map (fun f => f.ruleId)
        = st.ruleFires.map (fun f => f.ruleId)
          ++ (testLoop cr m rules).matchedRules.map (fun e => e.id)
  | [], st, _, _ => by simp [processLoop, testLoop]
  | rule :: rest, st, hnd, hq => by
    have hndr : (rest.map Rule.id).Nodup := (List.nodup_cons.1 (by simpa using hnd)).2
    have hhd : rule.id ∉ rest.map Rule.id := (List.nodup_cons.1 (by simpa using hnd)).1
    have hq1 : ∀ cd ∈ (sweepCooldowns now st).cooldowns, now < cd.expiresAt →
        cd.ruleId ∉ (rule :: rest).map Rule.id :=
      fun cd hcd => hq cd (List.mem_of_mem_filter hcd)
    have hqr : ∀ cd ∈ (sweepCooldowns now st).cooldowns, now < cd.expiresAt →
        cd.ruleId ∉ rest.map Rule.id :=
      fun cd hcd hlt hr => hq1 cd hcd hlt (by simp [List.mem_map] at hr ⊢; tauto)
    have hact : ¬ cooldownActive now rule.id m.chatId (sweepCooldowns now st) = true := by
      intro hco
      obtain ⟨cd, hmem, h1, _, h3⟩ := cooldownActive_iff.1 hco
      exact hq1 cd hmem h3 (by simp [h1])
    simp only [processLoop, testLoop]
    rw [if_neg hact]
    by_cases hm : (matchRule cr rule m).matched = true
    · rw [if_pos hm, if_pos hm]
      by_cases hstop : rule.stop_on_match ≠ some false
      · rw [if_pos hstop, if_pos hstop]
        simp [ruleFires_cooldownStep, logRuleFire, ruleFires_sweep]
      · rw [if_neg hstop, if_neg hstop]
        have hq3 : ∀ cd ∈ (cooldownStep now rule m.chatId
            (logRuleFire rule m idm (executeActions env rule m)
              (sweepCooldowns now st))).cooldowns,
            now < cd.expiresAt → cd.ruleId ∉ rest.map Rule.id := by
          intro cd hcd hlt
          rcases mem_cooldownStep_elim hcd with h2 | h2
          · exact hqr cd h2 hlt
          · exact h2 ▸ hhd
        rw [processLoop_fires_match_testLoop cr env now m idm rest _ hndr hq3]
        simp [ruleFires_cooldownStep, logRuleFire, ruleFires_sweep]
    · rw [if_neg hm, if_neg hm]
      rw [processLoop_fires_match_testLoop cr env now m idm rest _ hndr hqr]
      simp [ruleFires_sweep]

/-- C10.  With pairwise-distinct rule ids (the data model's invariant) and no
cooldown active in the store, the rule ids `processMessage` appends to the
rule-fire log for an event are, in order, exactly the rules `testMessage`
reports as matched for it: both paths filter to enabled rules, sort them
stably by priority ascending (default 100), apply the same `matchRule`, and
stop after the first matching rule whose `stop_on_match` is not `false`. -/
theorem test_matches_process_fires
    (cr : String → Option (String → Bool))
    (env : Action → IncomingMessage → Bool × Option String)
    (now : Int) (rs : RuleSet) (m : IncomingMessage)
    (idm : Option Nat) (st : Store)
    (hnd : (rs.rules.map Rule.id).Nodup)
    (hquiet : ∀ cd ∈ st.cooldowns, cd.expiresAt ≤ now) :
    (processMessage cr env now (some rs) m idm st).ruleFires.map (fun f => f.ruleId)
      = st.ruleFires.map (fun f => f.ruleId)
        ++ (testMessage cr (some rs) m).matchedRules.map (fun e => e.id) := by
  simp only [processMessage, testMessage]
  exact processLoop_fires_match_testLoop cr env now m idm (sortedEnabled rs.rules) st
    (sortedEnabled_nodup hnd)
    (fun cd hcd hlt => absurd (hquiet cd hcd) (by omega))

/-- A low-priority rule matching `hi` that lets the chain continue. -/
def ruleHiFirst : Rule :=
  { id := "r-first", name := "first", priority := some 10,
    stop_on_match := some false,
    match_ := { text := some { contains := some ["hi"] } },
    actions := [{ type := "reply_whatsapp", text := some "a" }] }

/-- A later rule matching `hi` with the default stop behaviour. -/
def ruleHiSecond : Rule :=
  { id := "r-second", name := "second", priority := some 20,
    match_ := { text := some { contains := some ["hi"] } },
    actions := [{ type := "reply_whatsapp", text := some "b" }] }

/-- A `hi` message. -/
def msgHi : IncomingMessage :=
  { chatId := "c@s.whatsapp.net", chatType := "direct", senderId := "s@x",
    text := "hi" }

/-- C10, witness: two matching rules, the first non-stopping, on an empty
store. -/
theorem test_matches_process_fires_witness :
    (processMessage noRegex okEnv 0
        (some { rules := [ruleHiFirst, ruleHiSecond] }) msgHi none
        {}).ruleFires.map (fun f => f.ruleId)
      = ({} : Store).ruleFires.map (fun f => f.ruleId)
        ++ (testMessage noRegex (some { rules := [ruleHiFirst, ruleHiSecond] })
            msgHi).matchedRules.map (fun e => e.id) :=
  test_matches_process_fires noRegex okEnv 0
    { rules := [ruleHiFirst, ruleHiSecond] } msgHi none {}
    (by decide) (by decide)

end WaGateway

namespace WaGateway

/-! ### C8 — `testMessage` is pure -/

/-- C8.  `testMessage` only matches: invoked on any store, it returns the
store unchanged (no rule-fire rows, no cooldown writes, no message rows), and
its result does not depend on the store at all (in particular it reads no
cooldowns); it takes no action-dispatch capability, so it executes no
action. -/
theorem test_message_pure (compileRegex : String → Option (String → Bool))
    (rulesCache : Option RuleSet) (message : IncomingMessage) (st st' : Store) :
    (testMessageCall compileRegex rulesCache message st).2 = st
    ∧ (testMessageCall compileRegex rulesCache message st).1
        = (testMessageCall compileRegex rulesCache message st').1 := by
  exact ⟨rfl, rfl⟩

end WaGateway
